import Mathlib

/-!
A verification development for the jsoncons JSON Schema compiler core
(`jsonschema/common/schema_builder.hpp` and `jsonschema/json_schema_factory.hpp`).

The builder state (schema dictionary, unresolved-reference list, unknown-keyword
table, subschema arena) and its operations are embedded as executable Lean
functions.  Schema validator nodes and reference validators are identified by
natural-number ids standing for the arena pointers; the draft-specific
`make_schema_validator` is a parameter (`Msv`), since each draft builder
subclass supplies its own implementation.
-/

namespace Jsonschema

/-- JSON values (the `Json` template parameter of the C++ code), with the
variants of `json_type` that the builder inspects. -/
inductive Json where
  | null
  | boolean (b : Bool)
  | number (n : Int)
  | str (s : String)
  | arr (items : List Json)
  | obj (members : List (String × Json))

/-- `sch.is_object()` -/
def Json.is_object : Json → Bool
  | .obj _ => true
  | _ => false

/-- `sch.is_bool()` -/
def Json.is_bool : Json → Bool
  | .boolean _ => true
  | _ => false

/-- Member lookup in a JSON object member list, as `sch.find(key)` does for the
first matching member. -/
def lookupMember : List (String × Json) → String → Option Json
  | [], _ => none
  | (k, v) :: rest, key => if k = key then some v else lookupMember rest key

/-- `sch.find(key)` on a `Json` value: only objects have members. -/
def Json.find (j : Json) (key : String) : Option Json :=
  match j with
  | .obj ms => lookupMember ms key
  | _ => none

/-- `v.as_string_view()` succeeds only on strings. -/
def Json.asStringOpt : Json → Option String
  | .str s => some s
  | _ => none

/-- Modelled from the spec: URIs and their fragments.  URI parsing is an
external collaborator (spec section 1, out of scope), so a URI is modelled as
its base string plus an optional fragment; registry comparison is
normalised-string equality with the fragment significant (spec section 4.A). -/
structure Uri where
  base : String
  fragment : Option String
deriving DecidableEq

/-- `uri.base()`: the URI stripped of its fragment. -/
def Uri.toBase (u : Uri) : Uri := ⟨u.base, none⟩

/-- `uri.string()`: the full URI string, fragment included. -/
def Uri.render (u : Uri) : String :=
  match u.fragment with
  | none => u.base
  | some f => u.base ++ "#" ++ f

/-- `uri_wrapper::has_fragment()`. -/
def Uri.hasFragment (u : Uri) : Bool := u.fragment.isSome

/-- Modelled from the spec: fragment classification (spec section 4.A).  A
plain-name anchor fragment is non-empty and is not a JSON Pointer (which
starts with a slash). -/
def Uri.hasPlainNameFragment (u : Uri) : Bool :=
  match u.fragment with
  | none => false
  | some f =>
    match f.data with
    | [] => false
    | c :: _ => !(c = '/')

/-- Modelled from the spec: `uri_wrapper::append(key)` appends `/key` to the
fragment, keyword paths being JSON-Pointer fragments (spec section 4.A). -/
def Uri.appendKey (u : Uri) (key : String) : Uri :=
  ⟨u.base, some ((u.fragment.getD "") ++ "/" ++ key)⟩

/-- Lookup in an association list keyed by URIs, as `std::map::find`. -/
def dictFind {α : Type} (d : List (Uri × α)) (u : Uri) : Option α :=
  match d with
  | [] => none
  | (k, v) :: rest => if k = u then some v else dictFind rest u

/-- `std::map::emplace`: inserts only when the key is absent. -/
def dictEmplace {α : Type} (d : List (Uri × α)) (u : Uri) (v : α) : List (Uri × α) :=
  match dictFind d u with
  | some _ => d
  | none => (u, v) :: d

/-- `std::map::erase` of the entry found for a key. -/
def dictErase {α : Type} (d : List (Uri × α)) (u : Uri) : List (Uri × α) :=
  d.filter (fun p => p.1 ≠ u)

/-- The mutable state of `schema_builder`: the schema registry
(`schema_dictionary_`), the unresolved-reference list (`unresolved_refs_`),
the unknown-keyword table (`unknown_keywords_`), and the arena of owned
subschemas (`subschemas_`).  Schema nodes and reference validators are
identified by `Nat` ids; `refTargets` carries, for every reference validator
created, its lazily-filled target pointer (`ref_validator::referred_schema_`),
and `nextId` is the allocator for fresh ids. -/
structure BuilderState where
  schema_dictionary : List (Uri × Nat)
  unresolved_refs : List (Uri × Nat)
  unknown_keywords : List (Uri × Json)
  subschemas : List Nat
  refTargets : List (Nat × Option Nat)
  nextId : Nat

/-- The empty builder state at construction. -/
def initState : BuilderState := ⟨[], [], [], [], [], 0⟩

/-- `schema_builder::save_schema`: moves a schema node into the arena. -/
def save_schema (s : BuilderState) (n : Nat) : BuilderState :=
  { s with subschemas := s.subschemas ++ [n] }

/-- `schema_builder::insert_schema`: registers a node under an absolute URI
(`emplace`, so an existing entry is kept). -/
def insert_schema (s : BuilderState) (identifier : Uri) (n : Nat) : BuilderState :=
  { s with schema_dictionary := dictEmplace s.schema_dictionary identifier n }

/-- `ref::set_referred_schema`: fills the target pointer of a reference
validator. -/
def set_referred_schema (s : BuilderState) (r : Nat) (n : Nat) : BuilderState :=
  { s with refTargets := s.refTargets.map (fun q => if q.1 = r then (q.1, some n) else q) }

/-- Allocation of a fresh `ref_validator` with the given (possibly null)
target pointer. -/
def new_ref (s : BuilderState) (target : Option Nat) : Nat × BuilderState :=
  (s.nextId,
   { s with refTargets := s.refTargets ++ [(s.nextId, target)], nextId := s.nextId + 1 })

/-- The type of the draft-specific `make_schema_validator` member
(`schema_builder` declares it pure virtual; each draft builder supplies it).
It receives the compilation context base URI and the raw schema JSON, and
returns the compiled node id together with the updated builder state. -/
abbrev Msv := BuilderState → Uri → Json → Nat × BuilderState

/-- `schema_builder::build_schema`: compiles the root schema in the context of
the retrieval URI and stores it as `root_`. -/
def build_schema (msv : Msv) (s : BuilderState) (sch : Json) (retrieval_uri : Uri) :
    Nat × BuilderState :=
  msv s retrieval_uri sch

/-- `schema_builder::get_or_create_reference`. -/
def get_or_create_reference (msv : Msv) (s : BuilderState) (identifier : Uri) :
    Nat × BuilderState :=
  match dictFind s.schema_dictionary identifier with
  | some n => new_ref s (some n)
  | none =>
    match (if identifier.hasFragment && !identifier.hasPlainNameFragment
           then dictFind s.unknown_keywords identifier
           else none) with
    | some subsch =>
      let ns := msv s identifier subsch
      let s2 := { ns.2 with unknown_keywords := dictErase ns.2.unknown_keywords identifier }
      let rs := new_ref s2 (some ns.1)
      (rs.1, save_schema rs.2 ns.1)
    | none =>
      let rs := new_ref s none
      (rs.1, { rs.2 with unresolved_refs := rs.2.unresolved_refs ++ [(identifier, rs.1)] })

mutual

/-- `schema_builder::insert_unknown_keyword`: records an unrecognized keyword
subtree under its JSON-Pointer URI, unless an unresolved reference is already
looking for that URI, in which case the subtree is compiled at once; then
recursively handles object members. -/
def insert_unknown_keyword (msv : Msv) (s : BuilderState) (u : Uri) (key : String)
    (value : Json) : BuilderState :=
  let new_uri := u.appendKey key
  if new_uri.hasFragment && !new_uri.hasPlainNameFragment then
    let s1 :=
      if (s.unresolved_refs.filter (fun p => p.1 = new_uri)) ≠ [] then
        let ns := msv s new_uri value
        save_schema ns.2 ns.1
      else
        { s with unknown_keywords := dictEmplace s.unknown_keywords new_uri value }
    match value with
    | Json.obj members => insert_unknown_members msv s1 new_uri members
    | _ => s1
  else s

/-- The recursion of `insert_unknown_keyword` over the members of an object
value. -/
def insert_unknown_members (msv : Msv) (s : BuilderState) (u : Uri) :
    List (String × Json) → BuilderState
  | [] => s
  | (k, v) :: rest =>
    insert_unknown_members msv (insert_unknown_keyword msv s u k v) u rest

end

/-- `schema_builder::resolve_references`, recursing over the unresolved list:
look each identifier up in the registry, fail on the first miss with the
`Undefined reference` message, otherwise fill the target pointer. -/
def link_refs (dict : List (Uri × Nat)) (prs : List (Uri × Nat)) (s : BuilderState) :
    Except String BuilderState :=
  match prs with
  | [] => Except.ok s
  | (u, r) :: rest =>
    match dictFind dict u with
    | none => Except.error ("Undefined reference " ++ u.render)
    | some n => link_refs dict rest (set_referred_schema s r n)

/-- `schema_builder::resolve_references`. -/
def resolve_references (s : BuilderState) : Except String BuilderState :=
  link_refs s.schema_dictionary s.unresolved_refs s

/-- One resolver invocation performed by the loading loop of
`schema_builder::get_schema`: the compilation context base URI used to compile
the fetched document, and the URI the resolver was called with. -/
structure LoadCall where
  contextBase : Uri
  resolverArg : Uri
deriving DecidableEq

/-- The inner loop of `schema_builder::get_schema` over one snapshot of the
unresolved locations: a location already in the registry is skipped; otherwise
the resolver is invoked on its base, the returned document is compiled in its
own base and saved, and the call is recorded; with no resolver available this
is a `schema_error`. -/
def load_locations (msv : Msv) (resolver : Option (Uri → Json))
    (locs : List Uri) (s : BuilderState) :
    Except String (BuilderState × List LoadCall) :=
  match locs with
  | [] => Except.ok (s, [])
  | loc :: rest =>
    match dictFind s.schema_dictionary loc with
    | some _ => load_locations msv resolver rest s
    | none =>
      match resolver with
      | some res =>
        let ext := res loc.toBase
        let ns := msv s loc.toBase ext
        match load_locations msv resolver rest (save_schema ns.2 ns.1) with
        | Except.ok (s3, calls) => Except.ok (s3, ⟨loc.toBase, loc.toBase⟩ :: calls)
        | Except.error e => Except.error e
      | none =>
        Except.error ("External schema reference \x27" ++ loc.toBase.render ++
          "\x27 needs to be loaded, but no resolver provided")

/-- The do-while loop of `schema_builder::get_schema`: run a full pass over the
snapshot of unresolved locations; stop as soon as a pass performs no load,
repeat otherwise.  `fuel` bounds the number of repeat passes, since the C++
loop has no intrinsic bound. -/
def get_schema_loop (msv : Msv) (resolver : Option (Uri → Json)) :
    Nat → BuilderState → Except String (BuilderState × List LoadCall)
  | 0, s =>
    match load_locations msv resolver (s.unresolved_refs.map Prod.fst) s with
    | Except.error e => Except.error e
    | Except.ok (s1, calls) =>
      if calls.isEmpty then Except.ok (s1, [])
      else Except.error "schema loading did not converge"
  | fuel + 1, s =>
    match load_locations msv resolver (s.unresolved_refs.map Prod.fst) s with
    | Except.error e => Except.error e
    | Except.ok (s1, calls) =>
      if calls.isEmpty then Except.ok (s1, [])
      else
        match get_schema_loop msv resolver fuel s1 with
        | Except.error e => Except.error e
        | Except.ok (s2, more) => Except.ok (s2, calls ++ more)

/-- `schema_builder::get_schema`: load all external schemas that have not
already been loaded, then link the references.  Returns the final builder
state together with every resolver invocation made. -/
def get_schema (msv : Msv) (resolver : Option (Uri → Json)) (fuel : Nat)
    (s : BuilderState) : Except String (BuilderState × List LoadCall) :=
  match get_schema_loop msv resolver fuel s with
  | Except.error e => Except.error e
  | Except.ok (s1, calls) =>
    match resolve_references s1 with
    | Except.error e => Except.error e
    | Except.ok s2 => Except.ok (s2, calls)

/-- Modelled from the spec: `schema_version::draft4()` (the `schema_version`
header is not in src; the spec lists the five supported identifiers). -/
def draft4_id : String := "http://json-schema.org/draft-04/schema#"

/-- Modelled from the spec: `schema_version::draft6()`. -/
def draft6_id : String := "http://json-schema.org/draft-06/schema#"

/-- Modelled from the spec: `schema_version::draft7()`. -/
def draft7_id : String := "http://json-schema.org/draft-07/schema#"

/-- Modelled from the spec: `schema_version::draft201909()`. -/
def draft201909_id : String := "https://json-schema.org/draft/2019-09/schema"

/-- Modelled from the spec: `schema_version::draft202012()`. -/
def draft202012_id : String := "https://json-schema.org/draft/2020-12/schema"

/-- The draft builder subclass selected by `schema_builder_factory`. -/
inductive DraftBuilder where
  | draft4
  | draft6
  | draft7
  | draft201909
  | draft202012
deriving DecidableEq

/-- `schema_builder_factory::get_builder`: the `$schema` identifier is compared
against the five supported versions, in the source order; anything else yields
no builder. -/
def get_builder (schema_id : String) : Option DraftBuilder :=
  if schema_id = draft202012_id then some DraftBuilder.draft202012
  else if schema_id = draft201909_id then some DraftBuilder.draft201909
  else if schema_id = draft7_id then some DraftBuilder.draft7
  else if schema_id = draft6_id then some DraftBuilder.draft6
  else if schema_id = draft4_id then some DraftBuilder.draft4
  else none

/-- `schema_builder_factory::operator()`: dispatch on the schema document.  An
object consults its `$schema` member (falling back to the default version from
the options, compared against the same five identifiers in the same order); a
boolean always gets the draft-7 builder; anything else is a `schema_error`.
A non-string `$schema` value makes `as_string_view()` raise. -/
def builder_factory (sch : Json) (default_version : String) :
    Except String DraftBuilder :=
  match sch with
  | Json.obj ms =>
    match lookupMember ms "$schema" with
    | some v =>
      match v.asStringOpt with
      | some sid =>
        match get_builder sid with
        | some b => Except.ok b
        | none => Except.error ("Unsupported schema version " ++ sid)
      | none => Except.error "Not a string view"
    | none =>
      match get_builder default_version with
      | some b => Except.ok b
      | none => Except.error ("Unsupported schema version " ++ default_version)
  | Json.boolean _ => Except.ok DraftBuilder.draft7
  | _ => Except.error "Schema must be object or boolean"

/-- `make_json_schema`: select a builder from the document, build the root
schema in the retrieval URI, then run `get_schema`.  A factory failure
propagates before any compilation happens, so no compiled schema is
produced. -/
def make_json_schema (msv : Msv) (resolver : Option (Uri → Json)) (fuel : Nat)
    (sch : Json) (retrieval_uri : Uri) (default_version : String) :
    Except String (DraftBuilder × Nat × BuilderState × List LoadCall) :=
  match builder_factory sch default_version with
  | Except.error e => Except.error e
  | Except.ok b =>
    let rootAnd := build_schema msv initState sch retrieval_uri
    match get_schema msv resolver fuel rootAnd.2 with
    | Except.error e => Except.error e
    | Except.ok (s2, calls) => Except.ok (b, rootAnd.1, s2, calls)

/-- `std::numeric_limits<std::size_t>::max()` on a 64-bit target. -/
def sizeTMax : Nat := 2 ^ 64 - 1

/-- `v.as<std::size_t>()` for the JSON values the `contains` builder reads:
defined on non-negative numbers. -/
def Json.asSizeT : Json → Option Nat
  | .number n => if n < 0 then none else some n.toNat
  | _ => none

/-- The compiled `contains` validator: its `max_contains_keyword` and
`min_contains_keyword` values (the subschema is abstracted as the matching
predicate at evaluation time). -/
structure ContainsValidator where
  maxContains : Nat
  minContains : Nat
deriving DecidableEq

/-- The `minContains` half of `schema_builder::make_contains_validator`:
sibling present means its value, absent means 1. -/
def make_contains_min (parent : List (String × Json)) (mx : Nat) :
    Except String ContainsValidator :=
  match lookupMember parent "minContains" with
  | some v =>
    match v.asSizeT with
    | none => Except.error "minContains conversion to size_t failed"
    | some mn => Except.ok ⟨mx, mn⟩
  | none => Except.ok ⟨mx, 1⟩

/-- `schema_builder::make_contains_validator`, reading the sibling
`maxContains` and `minContains` keywords from the parent object: absent
`maxContains` means `std::numeric_limits<std::size_t>::max()`, absent
`minContains` means 1. -/
def make_contains_validator (parent : List (String × Json)) :
    Except String ContainsValidator :=
  match lookupMember parent "maxContains" with
  | some v =>
    match v.asSizeT with
    | none => Except.error "maxContains conversion to size_t failed"
    | some mx => make_contains_min parent mx
  | none => make_contains_min parent sizeTMax

/-- Modelled from the spec: the evaluation of the `contains` keyword
(`keyword_validators.hpp` is not in src).  Spec section 4.B: `contains` is
satisfied when the count of matching items lies in
`[minContains, maxContains]`. -/
def contains_satisfied (cv : ContainsValidator) (msub : Json → Bool)
    (items : List Json) : Bool :=
  decide (cv.minContains ≤ (items.filter msub).length) &&
  decide ((items.filter msub).length ≤ cv.maxContains)

mutual

/-- The URI-keyed subtree entries that one `insert_unknown_keyword` call walks:
the appended URI with its value, followed recursively by the entries of the
object members.  Mirrors the recursion of `insert_unknown_keyword`. -/
def unknown_entries (u : Uri) (key : String) (v : Json) : List (Uri × Json) :=
  let new_uri := u.appendKey key
  if new_uri.hasFragment && !new_uri.hasPlainNameFragment then
    (new_uri, v) ::
      (match v with
       | Json.obj members => unknown_entries_members new_uri members
       | _ => [])
  else []

/-- The entries contributed by the members of an object value. -/
def unknown_entries_members (u : Uri) : List (String × Json) → List (Uri × Json)
  | [] => []
  | (k, v) :: rest => unknown_entries u k v ++ unknown_entries_members u rest

end

/-- A minimal `make_schema_validator` implementation used to witness the
theorems about the builder skeleton: it allocates a fresh node id and claims
no registrations of its own. -/
def msvW : Msv := fun s _ _ => (s.nextId, { s with nextId := s.nextId + 1 })

/-- A resolver that answers every request with a null document, for
witnesses. -/
def resW : Uri → Json := fun _ => Json.null

/-- A retrieval URI for witnesses. -/
def uriW : Uri := ⟨"https://example.com/root.json", none⟩

/-- An absolute URI with a JSON-Pointer fragment, for witnesses. -/
def uA : Uri := ⟨"https://example.com/a.json", some "/definitions/x"⟩

/-- An external document URI, for witnesses. -/
def uB : Uri := ⟨"https://example.com/b.json", some "/definitions/y"⟩

/-- A builder state with one unresolved reference whose identifier is already
registered: an internal forward reference after building. -/
def sInternal : BuilderState := ⟨[(uA, 3)], [(uA, 0)], [], [3], [(0, none)], 4⟩

/-- A builder state with one unresolved reference to a location that is not
registered: an external reference after building. -/
def sExternal : BuilderState := ⟨[], [(uB, 0)], [], [], [(0, none)], 1⟩

/-- The state `sExternal` after one loading pass: the external document was
compiled (node 1) and saved. -/
def sExternalLoaded : BuilderState := ⟨[], [(uB, 0)], [], [1], [(0, none)], 2⟩

/-- The base URI of an unknown keyword, for the C8 scenarios. -/
def baseU : Uri := ⟨"https://example.com/s.json", some ""⟩

/-- The JSON-Pointer URI of the unknown keyword `k` under `baseU`. -/
def refU : Uri := baseU.appendKey "k"

/-- A builder state in which an unresolved reference to `refU` is already
pending when the unknown keyword `k` is encountered. -/
def sPending : BuilderState := ⟨[], [(refU, 0)], [], [], [(0, none)], 1⟩

/-- A builder state with no unresolved references and an empty unknown-keyword
table. -/
def sClean : BuilderState := ⟨[], [], [], [], [], 0⟩

/-- A builder state whose unknown-keyword table holds a recorded subtree under
`refU`, ready to be promoted by a reference lookup. -/
def sRecorded : BuilderState := ⟨[], [], [(refU, Json.obj [])], [], [], 1⟩

theorem dictFind_mem {α : Type} {d : List (Uri × α)} {u : Uri} {v : α}
    (h : dictFind d u = some v) : (u, v) ∈ d := by
  induction d with
  | nil => simp [dictFind] at h
  | cons p rest ih =>
    obtain ⟨k, w⟩ := p
    simp only [dictFind] at h
    split at h
    · rename_i heq
      cases h
      subst heq
      exact List.mem_cons_self _ _
    · exact List.mem_cons_of_mem _ (ih h)

theorem dictFind_eq_none_iff {α : Type} {d : List (Uri × α)} {u : Uri} :
    dictFind d u = none ↔ ∀ p ∈ d, p.1 ≠ u := by
  induction d with
  | nil => simp [dictFind]
  | cons p rest ih =>
    obtain ⟨k, w⟩ := p
    simp only [dictFind]
    split
    · rename_i heq
      subst heq
      simp
    · rename_i hne
      simp only [List.mem_cons, ih]
      constructor
      · rintro h q (rfl | hq)
        · exact hne
        · exact h q hq
      · intro h q hq
        exact h q (Or.inr hq)

theorem set_referred_schema_dict (s : BuilderState) (r n : Nat) :
    (set_referred_schema s r n).schema_dictionary = s.schema_dictionary := rfl

theorem set_referred_schema_subschemas (s : BuilderState) (r n : Nat) :
    (set_referred_schema s r n).subschemas = s.subschemas := rfl

theorem mem_set_referred_self {s : BuilderState} {r : Nat} {q : Nat × Option Nat}
    (hq : q ∈ s.refTargets) (h : q.1 = r) (n : Nat) :
    (r, some n) ∈ (set_referred_schema s r n).refTargets := by
  have hmap : (if q.1 = r then (q.1, some n) else q) ∈
      (set_referred_schema s r n).refTargets :=
    List.mem_map_of_mem _ hq
  rw [if_pos h, h] at hmap
  exact hmap

theorem mem_set_referred_other {s : BuilderState} {r n : Nat} {q : Nat × Option Nat}
    (hq : q ∈ s.refTargets) (h : q.1 ≠ r) :
    q ∈ (set_referred_schema s r n).refTargets := by
  have hmap : (if q.1 = r then (q.1, some n) else q) ∈
      (set_referred_schema s r n).refTargets :=
    List.mem_map_of_mem _ hq
  rw [if_neg h] at hmap
  exact hmap

theorem mem_set_referred_src {s : BuilderState} {r n : Nat} {q : Nat × Option Nat}
    (hq : q ∈ (set_referred_schema s r n).refTargets) :
    (q ∈ s.refTargets ∧ q.1 ≠ r) ∨ (q.1 = r ∧ q.2 = some n) := by
  simp only [set_referred_schema, List.mem_map] at hq
  obtain ⟨p, hp, hpq⟩ := hq
  by_cases hc : p.1 = r
  · right
    rw [if_pos hc] at hpq
    subst hpq
    exact ⟨hc, rfl⟩
  · left
    rw [if_neg hc] at hpq
    subst hpq
    exact ⟨hp, hc⟩

theorem link_refs_components {dict : List (Uri × Nat)} {prs : List (Uri × Nat)} :
    ∀ (s s' : BuilderState),
      link_refs dict prs s = Except.ok s' →
      s'.schema_dictionary = s.schema_dictionary ∧ s'.subschemas = s.subschemas ∧
      s'.unresolved_refs = s.unresolved_refs ∧ s'.unknown_keywords = s.unknown_keywords := by
  induction prs with
  | nil =>
    intro s s' h
    cases h
    exact ⟨rfl, rfl, rfl, rfl⟩
  | cons p rest ih =>
    intro s s' h
    obtain ⟨u, r⟩ := p
    simp only [link_refs] at h
    split at h
    · cases h
    · obtain ⟨h1, h2, h3, h4⟩ := ih _ _ h
      exact ⟨h1, h2, h3, h4⟩

theorem link_refs_ok_of_found {dict : List (Uri × Nat)} {prs : List (Uri × Nat)} :
    ∀ (s : BuilderState),
      (∀ p ∈ prs, dictFind dict p.1 ≠ none) →
      ∃ s', link_refs dict prs s = Except.ok s' := by
  induction prs with
  | nil => intro s _; exact ⟨s, rfl⟩
  | cons p rest ih =>
    intro s h
    obtain ⟨u, r⟩ := p
    have hu : dictFind dict u ≠ none := h (u, r) (List.mem_cons_self _ _)
    simp only [link_refs]
    obtain ⟨n, hn⟩ := Option.ne_none_iff_exists'.mp hu
    rw [hn]
    exact ih _ fun q hq => h q (List.mem_cons_of_mem _ hq)

theorem link_refs_found_of_ok {dict : List (Uri × Nat)} {prs : List (Uri × Nat)} :
    ∀ (s s' : BuilderState),
      link_refs dict prs s = Except.ok s' →
      ∀ p ∈ prs, dictFind dict p.1 ≠ none := by
  induction prs with
  | nil => intro s s' _ p hp; cases hp
  | cons q rest ih =>
    intro s s' h p hp
    obtain ⟨u, r⟩ := q
    simp only [link_refs] at h
    split at h
    · cases h
    · rename_i n hn
      rcases List.mem_cons.mp hp with rfl | hp'
      · simp [hn]
      · exact ih _ _ h p hp'

theorem link_refs_error_at_first_miss {dict : List (Uri × Nat)} {u : Uri} {r : Nat} :
    ∀ (pre : List (Uri × Nat)) (post : List (Uri × Nat)) (s : BuilderState),
      (∀ q ∈ pre, dictFind dict q.1 ≠ none) →
      dictFind dict u = none →
      link_refs dict (pre ++ (u, r) :: post) s =
        Except.error ("Undefined reference " ++ u.render) := by
  intro pre
  induction pre with
  | nil =>
    intro post s _ hu
    simp only [List.nil_append, link_refs, hu]
  | cons q rest ih =>
    intro post s h hu
    obtain ⟨u', r'⟩ := q
    have hq : dictFind dict u' ≠ none := h (u', r') (List.mem_cons_self _ _)
    obtain ⟨n, hn⟩ := Option.ne_none_iff_exists'.mp hq
    simp only [List.cons_append, link_refs, hn]
    exact ih post _ (fun q hq => h q (List.mem_cons_of_mem _ hq)) hu

theorem link_refs_preserves_mem {dict : List (Uri × Nat)} {prs : List (Uri × Nat)} :
    ∀ (s s' : BuilderState),
      link_refs dict prs s = Except.ok s' →
      ∀ (x : Nat) (t : Option Nat), (x, t) ∈ s.refTargets → x ∉ prs.map Prod.snd →
      (x, t) ∈ s'.refTargets := by
  induction prs with
  | nil =>
    intro s s' h x t hm _
    cases h
    exact hm
  | cons q rest ih =>
    intro s s' h x t hm hx
    obtain ⟨u, r⟩ := q
    simp only [link_refs] at h
    split at h
    · cases h
    · rename_i n hn
      simp only [List.map_cons, List.mem_cons, not_or] at hx
      have hm' : (x, t) ∈ (set_referred_schema s r n).refTargets :=
        mem_set_referred_other hm hx.1
      exact ih _ _ h x t hm' hx.2

theorem link_refs_sets_targets {dict : List (Uri × Nat)} {prs : List (Uri × Nat)} :
    ∀ (s s' : BuilderState),
      link_refs dict prs s = Except.ok s' →
      (prs.map Prod.snd).Nodup →
      (∀ p ∈ prs, ∃ t, (p.2, t) ∈ s.refTargets) →
      ∀ p ∈ prs, ∃ n, dictFind dict p.1 = some n ∧ (p.2, some n) ∈ s'.refTargets := by
  induction prs with
  | nil => intro s s' _ _ _ p hp; cases hp
  | cons q rest ih =>
    intro s s' h hnd href p hp
    obtain ⟨u, r⟩ := q
    simp only [link_refs] at h
    split at h
    · cases h
    · rename_i n hn
      have hnd' : (rest.map Prod.snd).Nodup := (List.nodup_cons.mp (by simpa using hnd)).2
      have hrnotin : r ∉ rest.map Prod.snd := (List.nodup_cons.mp (by simpa using hnd)).1
      have href' : ∀ p ∈ rest, ∃ t, (p.2, t) ∈ (set_referred_schema s r n).refTargets := by
        intro p hp'
        obtain ⟨t, ht⟩ := href p (List.mem_cons_of_mem _ hp')
        by_cases hc : p.2 = r
        · exact ⟨some n, by rw [hc]; exact mem_set_referred_self ht hc n⟩
        · exact ⟨t, mem_set_referred_other ht hc⟩
      rcases List.mem_cons.mp hp with rfl | hp'
      · refine ⟨n, hn, ?_⟩
        obtain ⟨t, ht⟩ := href (u, r) (List.mem_cons_self _ _)
        have hmem : (r, some n) ∈ (set_referred_schema s r n).refTargets :=
          mem_set_referred_self ht rfl n
        exact link_refs_preserves_mem _ _ h r (some n) hmem hrnotin
      · exact ih _ _ h hnd' href' p hp'

/-- The ownership and bookkeeping invariant of the builder state threaded
through compilation.  `owned` lists the node ids the caller will own besides
the arena (ultimately the root node, which `get_schema` moves into the
compiled `json_schema` alongside `subschemas_`).  It says: every registry
entry points at an owned or saved node; every reference validator either
already has such a target or is listed in the unresolved-reference list; and
every unresolved listing refers to an existing reference validator. -/
def Inv (owned : List Nat) (s : BuilderState) : Prop :=
  (∀ p ∈ s.schema_dictionary, p.2 ∈ owned ++ s.subschemas) ∧
  (∀ q ∈ s.refTargets,
      (q.2 = none → q.1 ∈ s.unresolved_refs.map Prod.snd) ∧
      ∀ n, q.2 = some n → n ∈ owned ++ s.subschemas) ∧
  (∀ p ∈ s.unresolved_refs, ∃ t, (p.2, t) ∈ s.refTargets)

/-- The contract of a draft builder's `make_schema_validator` override (spec
sections 3 and 4.E): compiling a subschema registers only nodes that are saved
to the arena or returned to the caller for ownership, creates references
through the registry (so null-target references stay listed as unresolved),
and never unregisters anything. -/
def MsvOK (msv : Msv) : Prop :=
  ∀ owned s u v, Inv owned s → Inv ((msv s u v).1 :: owned) (msv s u v).2

/-- A draft builder only ever adds registry entries, never removes them. -/
def MsvDictMono (msv : Msv) : Prop :=
  ∀ s u v p, p ∈ s.schema_dictionary → p ∈ (msv s u v).2.schema_dictionary

theorem Inv_mono {owned owned' : List Nat} {s : BuilderState}
    (hsub : ∀ x ∈ owned, x ∈ owned') (h : Inv owned s) : Inv owned' s := by
  obtain ⟨h1, h2, h3⟩ := h
  have hup : ∀ x : Nat, x ∈ owned ++ s.subschemas → x ∈ owned' ++ s.subschemas := by
    intro x hx
    rcases List.mem_append.mp hx with hx | hx
    · exact List.mem_append.mpr (Or.inl (hsub x hx))
    · exact List.mem_append.mpr (Or.inr hx)
  refine ⟨fun p hp => hup _ (h1 p hp), fun q hq => ?_, h3⟩
  obtain ⟨hn, hs⟩ := h2 q hq
  exact ⟨hn, fun n hsn => hup _ (hs n hsn)⟩

theorem Inv_save_of_cons {owned : List Nat} {s : BuilderState} {n : Nat}
    (h : Inv (n :: owned) s) : Inv owned (save_schema s n) := by
  obtain ⟨h1, h2, h3⟩ := h
  have hup : ∀ x : Nat, x ∈ (n :: owned) ++ s.subschemas →
      x ∈ owned ++ (save_schema s n).subschemas := by
    intro x hx
    simp only [save_schema, List.mem_append, List.mem_cons] at hx ⊢
    rcases hx with (rfl | hx) | hx
    · simp
    · exact Or.inl hx
    · exact Or.inr (Or.inl hx)
  refine ⟨fun p hp => hup _ (h1 p hp), fun q hq => ?_, h3⟩
  obtain ⟨hn', hs⟩ := h2 q hq
  exact ⟨hn', fun m hm => hup _ (hs m hm)⟩

theorem Inv_msv_save {msv : Msv} (hmsv : MsvOK msv) {owned : List Nat}
    {s : BuilderState} (u : Uri) (v : Json) (h : Inv owned s) :
    Inv owned (save_schema (msv s u v).2 (msv s u v).1) :=
  Inv_save_of_cons (hmsv owned s u v h)

theorem Inv_load_locations {msv : Msv} (hmsv : MsvOK msv)
    {resolver : Option (Uri → Json)} {owned : List Nat} :
    ∀ (locs : List Uri) (s s1 : BuilderState) (calls : List LoadCall),
      Inv owned s →
      load_locations msv resolver locs s = Except.ok (s1, calls) →
      Inv owned s1 := by
  intro locs
  induction locs with
  | nil =>
    intro s s1 calls h hload
    cases hload
    exact h
  | cons loc rest ih =>
    intro s s1 calls h hload
    simp only [load_locations] at hload
    split at hload
    · exact ih _ _ _ h hload
    · split at hload
      · split at hload
        · rename_i heq
          cases hload
          exact ih _ _ _ (Inv_msv_save hmsv _ _ h) heq
        · cases hload
      · cases hload

theorem Inv_get_schema_loop {msv : Msv} (hmsv : MsvOK msv)
    {resolver : Option (Uri → Json)} {owned : List Nat} :
    ∀ (fuel : Nat) (s s1 : BuilderState) (calls : List LoadCall),
      Inv owned s →
      get_schema_loop msv resolver fuel s = Except.ok (s1, calls) →
      Inv owned s1 := by
  intro fuel
  induction fuel with
  | zero =>
    intro s s1 calls h hloop
    simp only [get_schema_loop] at hloop
    split at hloop
    · cases hloop
    · rename_i res s2 calls2 hload
      split at hloop
      · cases hloop
        exact Inv_load_locations hmsv _ _ _ _ h hload
      · cases hloop
  | succ f ih =>
    intro s s1 calls h hloop
    simp only [get_schema_loop] at hloop
    split at hloop
    · cases hloop
    · rename_i res s2 calls2 hload
      have h2 : Inv owned s2 := Inv_load_locations hmsv _ _ _ _ h hload
      split at hloop
      · cases hloop
        exact h2
      · split at hloop
        · cases hloop
        · rename_i s3 more hrec
          cases hloop
          exact ih _ _ _ h2 hrec

theorem link_refs_closure {dict : List (Uri × Nat)} {P : Nat → Prop}
    (hdict : ∀ p ∈ dict, P p.2) {prs : List (Uri × Nat)} :
    ∀ (s s' : BuilderState),
      link_refs dict prs s = Except.ok s' →
      (∀ q ∈ s.refTargets, q.2 = none → q.1 ∈ prs.map Prod.snd) →
      (∀ q ∈ s.refTargets, ∀ n, q.2 = some n → P n) →
      ∀ q ∈ s'.refTargets, ∃ n, q.2 = some n ∧ P n := by
  induction prs with
  | nil =>
    intro s s' h hnone hsome q hq
    cases h
    cases hqt : q.2 with
    | none =>
      have := hnone q hq hqt
      simp at this
    | some n => exact ⟨n, rfl, hsome q hq n hqt⟩
  | cons p rest ih =>
    intro s s' h hnone hsome q hq
    obtain ⟨u, r⟩ := p
    simp only [link_refs] at h
    split at h
    · cases h
    · rename_i n hn
      have hPn : P n := hdict (u, n) (dictFind_mem hn)
      refine ih _ _ h ?_ ?_ q hq
      · intro q' hq' hqt
        rcases mem_set_referred_src hq' with ⟨hmem, hne⟩ | ⟨_, hsn⟩
        · have := hnone q' hmem hqt
          simp only [List.map_cons, List.mem_cons] at this
          rcases this with heq | hmem'
          · exact absurd heq hne
          · exact hmem'
        · rw [hsn] at hqt
          cases hqt
      · intro q' hq' m hm
        rcases mem_set_referred_src hq' with ⟨hmem, _⟩ | ⟨_, hsn⟩
        · exact hsome q' hmem m hm
        · rw [hsn] at hm
          cases hm
          exact hPn

theorem resolve_references_closure {owned : List Nat} {s s' : BuilderState}
    (hInv : Inv owned s) (h : resolve_references s = Except.ok s') :
    s'.subschemas = s.subschemas ∧
    ∀ q ∈ s'.refTargets, ∃ n, q.2 = some n ∧ n ∈ owned ++ s.subschemas := by
  obtain ⟨h1, h2, _⟩ := hInv
  refine ⟨(link_refs_components _ _ h).2.1, ?_⟩
  exact link_refs_closure h1 _ _ h (fun q hq => (h2 q hq).1) (fun q hq => (h2 q hq).2)

theorem dictFind_emplace_self {α : Type} (d : List (Uri × α)) (u : Uri) (v : α) :
    dictFind (dictEmplace d u v) u ≠ none := by
  unfold dictEmplace
  cases h : dictFind d u with
  | some w => simp [h]
  | none => simp [dictFind]

theorem dictFind_emplace_mono {α : Type} (d : List (Uri × α)) (u x : Uri) (v : α)
    (h : dictFind d x ≠ none) : dictFind (dictEmplace d u v) x ≠ none := by
  unfold dictEmplace
  cases hf : dictFind d u with
  | some w => exact h
  | none =>
    simp only [dictFind]
    split
    · simp
    · exact h

theorem dictFind_erase_self {α : Type} (d : List (Uri × α)) (u : Uri) :
    dictFind (dictErase d u) u = none := by
  rw [dictFind_eq_none_iff]
  intro p hp
  simp only [dictErase, List.mem_filter, decide_eq_true_eq] at hp
  exact hp.2

theorem filter_unresolved_eq_nil {s : BuilderState} {x : Uri}
    (h : ∀ p ∈ s.unresolved_refs, p.1 ≠ x) :
    s.unresolved_refs.filter (fun p => p.1 = x) = [] := by
  rw [List.filter_eq_nil_iff]
  intro p hp
  simp only [decide_eq_true_eq]
  exact h p hp

theorem iuk_eq_obj (msv : Msv) (s : BuilderState) (u : Uri) (key : String)
    (ms : List (String × Json)) :
    insert_unknown_keyword msv s u key (Json.obj ms) =
      if (u.appendKey key).hasFragment && !(u.appendKey key).hasPlainNameFragment then
        insert_unknown_members msv
          (if (s.unresolved_refs.filter (fun p => p.1 = u.appendKey key)) ≠ [] then
             save_schema (msv s (u.appendKey key) (Json.obj ms)).2
               (msv s (u.appendKey key) (Json.obj ms)).1
           else { s with unknown_keywords :=
               dictEmplace s.unknown_keywords (u.appendKey key) (Json.obj ms) })
          (u.appendKey key) ms
      else s := by
  rw [insert_unknown_keyword]

theorem iuk_eq_scalar (msv : Msv) (s : BuilderState) (u : Uri) (key : String)
    (v : Json) (hv : v.is_object = false) :
    insert_unknown_keyword msv s u key v =
      if (u.appendKey key).hasFragment && !(u.appendKey key).hasPlainNameFragment then
        (if (s.unresolved_refs.filter (fun p => p.1 = u.appendKey key)) ≠ [] then
           save_schema (msv s (u.appendKey key) v).2 (msv s (u.appendKey key) v).1
         else { s with unknown_keywords :=
             dictEmplace s.unknown_keywords (u.appendKey key) v })
      else s := by
  cases v with
  | obj ms => simp [Json.is_object] at hv
  | null => rw [insert_unknown_keyword]
  | boolean b => rw [insert_unknown_keyword]
  | number n => rw [insert_unknown_keyword]
  | str t => rw [insert_unknown_keyword]
  | arr xs => rw [insert_unknown_keyword]

theorem unknown_entries_obj (u : Uri) (key : String) (ms : List (String × Json)) :
    unknown_entries u key (Json.obj ms) =
      if (u.appendKey key).hasFragment && !(u.appendKey key).hasPlainNameFragment then
        (u.appendKey key, Json.obj ms) :: unknown_entries_members (u.appendKey key) ms
      else [] := by
  rw [unknown_entries]

theorem unknown_entries_scalar (u : Uri) (key : String) (v : Json)
    (hv : v.is_object = false) :
    unknown_entries u key v =
      if (u.appendKey key).hasFragment && !(u.appendKey key).hasPlainNameFragment then
        [(u.appendKey key, v)]
      else [] := by
  cases v with
  | obj ms => simp [Json.is_object] at hv
  | null =>
    rw [unknown_entries]
    exact fun _ h => Json.noConfusion h
  | boolean b =>
    rw [unknown_entries]
    exact fun _ h => Json.noConfusion h
  | number n =>
    rw [unknown_entries]
    exact fun _ h => Json.noConfusion h
  | str t =>
    rw [unknown_entries]
    exact fun _ h => Json.noConfusion h
  | arr xs =>
    rw [unknown_entries]
    exact fun _ h => Json.noConfusion h

theorem pending_if_else {α : Type} {s : BuilderState} {x : Uri} (a b : α)
    (hnp : s.unresolved_refs.filter (fun p => p.1 = x) = []) :
    (if (s.unresolved_refs.filter (fun p => p.1 = x)) ≠ [] then a else b) = b :=
  if_neg (fun hne => hne hnp)

theorem pending_if_then {α : Type} {s : BuilderState} {x : Uri} (a b : α)
    (hp : s.unresolved_refs.filter (fun p => p.1 = x) ≠ []) :
    (if (s.unresolved_refs.filter (fun p => p.1 = x)) ≠ [] then a else b) = a :=
  if_pos hp

mutual

theorem iuk_records (msv : Msv) (s : BuilderState) (u : Uri) (key : String) (v : Json)
    (h : ∀ e ∈ unknown_entries u key v, ∀ p ∈ s.unresolved_refs, p.1 ≠ e.1) :
    (insert_unknown_keyword msv s u key v).unresolved_refs = s.unresolved_refs ∧
    (∀ x, dictFind s.unknown_keywords x ≠ none →
      dictFind (insert_unknown_keyword msv s u key v).unknown_keywords x ≠ none) ∧
    (∀ e ∈ unknown_entries u key v,
      dictFind (insert_unknown_keyword msv s u key v).unknown_keywords e.1 ≠ none) := by
  by_cases hfrag :
      ((u.appendKey key).hasFragment && !(u.appendKey key).hasPlainNameFragment) = true
  · cases v with
    | obj members =>
      have hent2 : unknown_entries u key (Json.obj members) =
          (u.appendKey key, Json.obj members) ::
            unknown_entries_members (u.appendKey key) members := by
        rw [unknown_entries_obj, if_pos hfrag]
      have hnp : s.unresolved_refs.filter (fun p => p.1 = u.appendKey key) = [] := by
        refine filter_unresolved_eq_nil
          (fun p hp => h (u.appendKey key, Json.obj members) ?_ p hp)
        rw [hent2]
        exact List.mem_cons_self _ _
      have hs1 : insert_unknown_keyword msv s u key (Json.obj members) =
          insert_unknown_members msv
            { s with unknown_keywords :=
                dictEmplace s.unknown_keywords (u.appendKey key) (Json.obj members) }
            (u.appendKey key) members := by
        rw [iuk_eq_obj, if_pos hfrag, pending_if_else _ _ hnp]
      have hrec := iuk_members_records msv
        { s with unknown_keywords :=
            dictEmplace s.unknown_keywords (u.appendKey key) (Json.obj members) }
        (u.appendKey key) members
        (by
          intro e he p hp
          refine h e ?_ p hp
          rw [hent2]
          exact List.mem_cons_of_mem _ he)
      rw [hs1, hent2]
      refine ⟨hrec.1, fun x hx => hrec.2.1 x (dictFind_emplace_mono _ _ _ _ hx), ?_⟩
      intro e he
      rcases List.mem_cons.mp he with rfl | he'
      · exact hrec.2.1 _ (dictFind_emplace_self _ _ _)
      · exact hrec.2.2 e he'
    | null =>
      have hent2 : unknown_entries u key Json.null = [(u.appendKey key, Json.null)] := by
        rw [unknown_entries_scalar u key Json.null rfl, if_pos hfrag]
      have hnp : s.unresolved_refs.filter (fun p => p.1 = u.appendKey key) = [] := by
        refine filter_unresolved_eq_nil (fun p hp => h (u.appendKey key, Json.null) ?_ p hp)
        rw [hent2]
        exact List.mem_singleton.mpr rfl
      have hs1 : insert_unknown_keyword msv s u key Json.null =
          { s with unknown_keywords :=
              dictEmplace s.unknown_keywords (u.appendKey key) Json.null } := by
        rw [iuk_eq_scalar msv s u key Json.null rfl, if_pos hfrag, pending_if_else _ _ hnp]
      rw [hs1, hent2]
      refine ⟨rfl, fun x hx => dictFind_emplace_mono _ _ _ _ hx, ?_⟩
      intro e he
      rw [List.mem_singleton] at he
      subst he
      exact dictFind_emplace_self _ _ _
    | boolean b =>
      have hent2 : unknown_entries u key (Json.boolean b) = [(u.appendKey key, (Json.boolean b))] := by
        rw [unknown_entries_scalar u key (Json.boolean b) rfl, if_pos hfrag]
      have hnp : s.unresolved_refs.filter (fun p => p.1 = u.appendKey key) = [] := by
        refine filter_unresolved_eq_nil (fun p hp => h (u.appendKey key, (Json.boolean b)) ?_ p hp)
        rw [hent2]
        exact List.mem_singleton.mpr rfl
      have hs1 : insert_unknown_keyword msv s u key (Json.boolean b) =
          { s with unknown_keywords :=
              dictEmplace s.unknown_keywords (u.appendKey key) (Json.boolean b) } := by
        rw [iuk_eq_scalar msv s u key (Json.boolean b) rfl, if_pos hfrag, pending_if_else _ _ hnp]
      rw [hs1, hent2]
      refine ⟨rfl, fun x hx => dictFind_emplace_mono _ _ _ _ hx, ?_⟩
      intro e he
      rw [List.mem_singleton] at he
      subst he
      exact dictFind_emplace_self _ _ _
    | number n =>
      have hent2 : unknown_entries u key (Json.number n) = [(u.appendKey key, (Json.number n))] := by
        rw [unknown_entries_scalar u key (Json.number n) rfl, if_pos hfrag]
      have hnp : s.unresolved_refs.filter (fun p => p.1 = u.appendKey key) = [] := by
        refine filter_unresolved_eq_nil (fun p hp => h (u.appendKey key, (Json.number n)) ?_ p hp)
        rw [hent2]
        exact List.mem_singleton.mpr rfl
      have hs1 : insert_unknown_keyword msv s u key (Json.number n) =
          { s with unknown_keywords :=
              dictEmplace s.unknown_keywords (u.appendKey key) (Json.number n) } := by
        rw [iuk_eq_scalar msv s u key (Json.number n) rfl, if_pos hfrag, pending_if_else _ _ hnp]
      rw [hs1, hent2]
      refine ⟨rfl, fun x hx => dictFind_emplace_mono _ _ _ _ hx, ?_⟩
      intro e he
      rw [List.mem_singleton] at he
      subst he
      exact dictFind_emplace_self _ _ _
    | str t =>
      have hent2 : unknown_entries u key (Json.str t) = [(u.appendKey key, (Json.str t))] := by
        rw [unknown_entries_scalar u key (Json.str t) rfl, if_pos hfrag]
      have hnp : s.unresolved_refs.filter (fun p => p.1 = u.appendKey key) = [] := by
        refine filter_unresolved_eq_nil (fun p hp => h (u.appendKey key, (Json.str t)) ?_ p hp)
        rw [hent2]
        exact List.mem_singleton.mpr rfl
      have hs1 : insert_unknown_keyword msv s u key (Json.str t) =
          { s with unknown_keywords :=
              dictEmplace s.unknown_keywords (u.appendKey key) (Json.str t) } := by
        rw [iuk_eq_scalar msv s u key (Json.str t) rfl, if_pos hfrag, pending_if_else _ _ hnp]
      rw [hs1, hent2]
      refine ⟨rfl, fun x hx => dictFind_emplace_mono _ _ _ _ hx, ?_⟩
      intro e he
      rw [List.mem_singleton] at he
      subst he
      exact dictFind_emplace_self _ _ _
    | arr xs =>
      have hent2 : unknown_entries u key (Json.arr xs) = [(u.appendKey key, (Json.arr xs))] := by
        rw [unknown_entries_scalar u key (Json.arr xs) rfl, if_pos hfrag]
      have hnp : s.unresolved_refs.filter (fun p => p.1 = u.appendKey key) = [] := by
        refine filter_unresolved_eq_nil (fun p hp => h (u.appendKey key, (Json.arr xs)) ?_ p hp)
        rw [hent2]
        exact List.mem_singleton.mpr rfl
      have hs1 : insert_unknown_keyword msv s u key (Json.arr xs) =
          { s with unknown_keywords :=
              dictEmplace s.unknown_keywords (u.appendKey key) (Json.arr xs) } := by
        rw [iuk_eq_scalar msv s u key (Json.arr xs) rfl, if_pos hfrag, pending_if_else _ _ hnp]
      rw [hs1, hent2]
      refine ⟨rfl, fun x hx => dictFind_emplace_mono _ _ _ _ hx, ?_⟩
      intro e he
      rw [List.mem_singleton] at he
      subst he
      exact dictFind_emplace_self _ _ _
  · have hskip : insert_unknown_keyword msv s u key v = s := by
      cases v with
      | obj ms => rw [iuk_eq_obj, if_neg hfrag]
      | null => rw [iuk_eq_scalar msv s u key Json.null rfl, if_neg hfrag]
      | boolean b => rw [iuk_eq_scalar msv s u key (Json.boolean b) rfl, if_neg hfrag]
      | number n => rw [iuk_eq_scalar msv s u key (Json.number n) rfl, if_neg hfrag]
      | str t => rw [iuk_eq_scalar msv s u key (Json.str t) rfl, if_neg hfrag]
      | arr xs => rw [iuk_eq_scalar msv s u key (Json.arr xs) rfl, if_neg hfrag]
    have hent : unknown_entries u key v = [] := by
      cases v with
      | obj ms => rw [unknown_entries_obj, if_neg hfrag]
      | null => rw [unknown_entries_scalar u key Json.null rfl, if_neg hfrag]
      | boolean b => rw [unknown_entries_scalar u key (Json.boolean b) rfl, if_neg hfrag]
      | number n => rw [unknown_entries_scalar u key (Json.number n) rfl, if_neg hfrag]
      | str t => rw [unknown_entries_scalar u key (Json.str t) rfl, if_neg hfrag]
      | arr xs => rw [unknown_entries_scalar u key (Json.arr xs) rfl, if_neg hfrag]
    rw [hskip, hent]
    exact ⟨rfl, fun x hx => hx, fun e he => absurd he (List.not_mem_nil e)⟩

theorem iuk_members_records (msv : Msv) (s : BuilderState) (u : Uri)
    (ms : List (String × Json))
    (h : ∀ e ∈ unknown_entries_members u ms, ∀ p ∈ s.unresolved_refs, p.1 ≠ e.1) :
    (insert_unknown_members msv s u ms).unresolved_refs = s.unresolved_refs ∧
    (∀ x, dictFind s.unknown_keywords x ≠ none →
      dictFind (insert_unknown_members msv s u ms).unknown_keywords x ≠ none) ∧
    (∀ e ∈ unknown_entries_members u ms,
      dictFind (insert_unknown_members msv s u ms).unknown_keywords e.1 ≠ none) := by
  cases ms with
  | nil =>
    rw [insert_unknown_members, unknown_entries_members]
    exact ⟨rfl, fun x hx => hx, fun e he => absurd he (List.not_mem_nil e)⟩
  | cons kv rest =>
    obtain ⟨k, v⟩ := kv
    have hhd := iuk_records msv s u k v
      (by
        intro e he p hp
        refine h e ?_ p hp
        rw [unknown_entries_members]
        exact List.mem_append.mpr (Or.inl he))
    have htl := iuk_members_records msv (insert_unknown_keyword msv s u k v) u rest
      (by
        intro e he p hp
        rw [hhd.1] at hp
        refine h e ?_ p hp
        rw [unknown_entries_members]
        exact List.mem_append.mpr (Or.inr he))
    rw [insert_unknown_members]
    refine ⟨by rw [htl.1, hhd.1], ?_, ?_⟩
    · intro x hx
      exact htl.2.1 x (hhd.2.1 x hx)
    · intro e he
      rw [unknown_entries_members] at he
      rcases List.mem_append.mp he with he' | he'
      · exact htl.2.1 _ (hhd.2.2 e he')
      · exact htl.2.2 e he'

end

theorem msvW_OK : MsvOK msvW := by
  intro owned s u v h
  exact Inv_mono (fun x hx => List.mem_cons_of_mem _ hx) h

theorem msvW_dict_mono : MsvDictMono msvW :=
  fun _ _ _ _ hp => hp

/-- C1: for every schema document on which `build_schema` followed by
`get_schema` returns successfully, every reference validator created during
the build carries a non-null target schema node owned by the compiled
schema's node arena (the saved subschemas together with the root that
`get_schema` hands to the compiled `json_schema`). -/
theorem compile_ref_targets_in_arena (msv : Msv) (hmsv : MsvOK msv)
    (sch : Json) (ruri : Uri) (resolver : Option (Uri → Json)) (fuel : Nat)
    (s2 : BuilderState) (calls : List LoadCall)
    (hok : get_schema msv resolver fuel (build_schema msv initState sch ruri).2 =
      Except.ok (s2, calls)) :
    ∀ q ∈ s2.refTargets, ∃ n, q.2 = some n ∧
      n ∈ (build_schema msv initState sch ruri).1 :: s2.subschemas := by
  have hInit : Inv [] initState := by
    refine ⟨?_, ?_, ?_⟩ <;> (intro p hp; cases hp)
  have hRoot : Inv [(build_schema msv initState sch ruri).1]
      (build_schema msv initState sch ruri).2 :=
    hmsv [] initState ruri sch hInit
  rw [get_schema] at hok
  split at hok
  · cases hok
  · rename_i s1 calls1 hloop
    split at hok
    · cases hok
    · rename_i s3 hres
      cases hok
      have hInv1 : Inv [(build_schema msv initState sch ruri).1] s1 :=
        Inv_get_schema_loop hmsv fuel _ _ _ hRoot hloop
      obtain ⟨hsub, hclo⟩ := resolve_references_closure hInv1 hres
      intro q hq
      obtain ⟨n, hn, hmem⟩ := hclo q hq
      refine ⟨n, hn, ?_⟩
      rw [List.mem_cons, hsub]
      simpa using List.mem_append.mp hmem

/-- Witness for C1 at a concrete compile of the null document. -/
theorem compile_ref_targets_in_arena_witness :
    MsvOK msvW ∧
    ∀ q ∈ (⟨[], [], [], [], [], 1⟩ : BuilderState).refTargets, ∃ n, q.2 = some n ∧
      n ∈ (build_schema msvW initState Json.null uriW).1 ::
        (⟨[], [], [], [], [], 1⟩ : BuilderState).subschemas :=
  ⟨msvW_OK,
   compile_ref_targets_in_arena msvW msvW_OK Json.null uriW none 0
     ⟨[], [], [], [], [], 1⟩ [] rfl⟩

/-- C2: reference linking looks each unresolved `(uri, ref)` pair up in the
registry; linking succeeds exactly when every identifier is registered, the
first missing identifier raises the `Undefined reference <uri>` error, a
successful run stores the registered node into each reference validator, and
the outcome is independent of the reference targets themselves (the target
graph is never traversed, so cycles cannot cause failure). -/
theorem resolve_references_spec (s : BuilderState)
    (hnd : (s.unresolved_refs.map Prod.snd).Nodup)
    (href : ∀ p ∈ s.unresolved_refs, ∃ t, (p.2, t) ∈ s.refTargets) :
    ((∃ s2, resolve_references s = Except.ok s2) ↔
        ∀ p ∈ s.unresolved_refs, dictFind s.schema_dictionary p.1 ≠ none)
  ∧ (∀ (pre post : List (Uri × Nat)) (u : Uri) (r : Nat),
        s.unresolved_refs = pre ++ (u, r) :: post →
        (∀ q ∈ pre, dictFind s.schema_dictionary q.1 ≠ none) →
        dictFind s.schema_dictionary u = none →
        resolve_references s = Except.error ("Undefined reference " ++ u.render))
  ∧ (∀ s2, resolve_references s = Except.ok s2 →
        ∀ p ∈ s.unresolved_refs, ∃ n, dictFind s.schema_dictionary p.1 = some n ∧
          (p.2, some n) ∈ s2.refTargets)
  ∧ (∀ rt : List (Nat × Option Nat),
        (∃ s2, resolve_references { s with refTargets := rt } = Except.ok s2) ↔
        (∃ s2, resolve_references s = Except.ok s2)) := by
  refine ⟨⟨?_, ?_⟩, ?_, ?_, ?_⟩
  · rintro ⟨s2, h⟩
    exact link_refs_found_of_ok _ _ h
  · intro h
    exact link_refs_ok_of_found _ h
  · intro pre post u r hsplit hpre hu
    rw [resolve_references, hsplit]
    exact link_refs_error_at_first_miss pre post _ hpre hu
  · intro s2 h
    exact link_refs_sets_targets _ _ h hnd href
  · intro rt
    constructor
    · rintro ⟨s2, h⟩
      exact link_refs_ok_of_found s (link_refs_found_of_ok _ _ h)
    · rintro ⟨s2, h⟩
      exact link_refs_ok_of_found _ (link_refs_found_of_ok _ _ h)

/-- Witness for C2 at a concrete state with one registered reference. -/
theorem resolve_references_spec_witness :
    ((sInternal.unresolved_refs.map Prod.snd).Nodup) ∧
    (((∃ s2, resolve_references sInternal = Except.ok s2) ↔
        ∀ p ∈ sInternal.unresolved_refs,
          dictFind sInternal.schema_dictionary p.1 ≠ none)
    ∧ (∀ (pre post : List (Uri × Nat)) (u : Uri) (r : Nat),
          sInternal.unresolved_refs = pre ++ (u, r) :: post →
          (∀ q ∈ pre, dictFind sInternal.schema_dictionary q.1 ≠ none) →
          dictFind sInternal.schema_dictionary u = none →
          resolve_references sInternal =
            Except.error ("Undefined reference " ++ u.render))
    ∧ (∀ s2, resolve_references sInternal = Except.ok s2 →
          ∀ p ∈ sInternal.unresolved_refs, ∃ n,
            dictFind sInternal.schema_dictionary p.1 = some n ∧
            (p.2, some n) ∈ s2.refTargets)
    ∧ (∀ rt : List (Nat × Option Nat),
          (∃ s2, resolve_references { sInternal with refTargets := rt } = Except.ok s2) ↔
          (∃ s2, resolve_references sInternal = Except.ok s2))) :=
  ⟨by decide,
   resolve_references_spec sInternal (by decide)
     (by
       intro p hp
       have hp2 : p ∈ [(uA, (0 : Nat))] := hp
       rw [List.mem_singleton] at hp2
       subst hp2
       exact ⟨none, List.mem_singleton.mpr rfl⟩)⟩

/-- C3: an object schema whose `$schema` member is one of the five supported
identifiers selects the corresponding draft builder; any other string value
raises a `schema_error` whose message begins `Unsupported schema version`. -/
theorem factory_schema_version_dispatch (ms : List (String × Json)) (sid dv : String)
    (hfind : lookupMember ms "$schema" = some (Json.str sid)) :
    (sid = draft4_id → builder_factory (Json.obj ms) dv = Except.ok DraftBuilder.draft4)
  ∧ (sid = draft6_id → builder_factory (Json.obj ms) dv = Except.ok DraftBuilder.draft6)
  ∧ (sid = draft7_id → builder_factory (Json.obj ms) dv = Except.ok DraftBuilder.draft7)
  ∧ (sid = draft201909_id →
      builder_factory (Json.obj ms) dv = Except.ok DraftBuilder.draft201909)
  ∧ (sid = draft202012_id →
      builder_factory (Json.obj ms) dv = Except.ok DraftBuilder.draft202012)
  ∧ (sid ≠ draft4_id → sid ≠ draft6_id → sid ≠ draft7_id → sid ≠ draft201909_id →
      sid ≠ draft202012_id →
      ∃ tail, builder_factory (Json.obj ms) dv =
        Except.error ("Unsupported schema version" ++ tail)) := by
  have hbase : builder_factory (Json.obj ms) dv =
      (match get_builder sid with
       | some b => Except.ok b
       | none => Except.error ("Unsupported schema version " ++ sid)) := by
    rw [builder_factory, hfind]
    rfl
  refine ⟨?_, ?_, ?_, ?_, ?_, ?_⟩
  · intro h
    subst h
    rw [hbase]
    rfl
  · intro h
    subst h
    rw [hbase]
    rfl
  · intro h
    subst h
    rw [hbase]
    rfl
  · intro h
    subst h
    rw [hbase]
    rfl
  · intro h
    subst h
    rw [hbase]
    rfl
  · intro h4 h6 h7 h19 h20
    have hnone : get_builder sid = none := by
      rw [get_builder, if_neg h20, if_neg h19, if_neg h7, if_neg h6, if_neg h4]
    refine ⟨" " ++ sid, ?_⟩
    rw [hbase, hnone]
    rfl

/-- Witness for C3 at an object schema carrying the draft-7 identifier. -/
theorem factory_schema_version_dispatch_witness :
    ((draft7_id = draft4_id →
        builder_factory (Json.obj [("$schema", Json.str draft7_id)]) "" =
          Except.ok DraftBuilder.draft4)
  ∧ (draft7_id = draft6_id →
      builder_factory (Json.obj [("$schema", Json.str draft7_id)]) "" =
        Except.ok DraftBuilder.draft6)
  ∧ (draft7_id = draft7_id →
      builder_factory (Json.obj [("$schema", Json.str draft7_id)]) "" =
        Except.ok DraftBuilder.draft7)
  ∧ (draft7_id = draft201909_id →
      builder_factory (Json.obj [("$schema", Json.str draft7_id)]) "" =
        Except.ok DraftBuilder.draft201909)
  ∧ (draft7_id = draft202012_id →
      builder_factory (Json.obj [("$schema", Json.str draft7_id)]) "" =
        Except.ok DraftBuilder.draft202012)
  ∧ (draft7_id ≠ draft4_id → draft7_id ≠ draft6_id → draft7_id ≠ draft7_id →
      draft7_id ≠ draft201909_id → draft7_id ≠ draft202012_id →
      ∃ tail, builder_factory (Json.obj [("$schema", Json.str draft7_id)]) "" =
        Except.error ("Unsupported schema version" ++ tail))) :=
  factory_schema_version_dispatch [("$schema", Json.str draft7_id)] draft7_id "" rfl

/-- C9: a boolean schema document always gets the draft-7 builder, whatever
the default draft version in the options is. -/
theorem boolean_schema_uses_draft7 (b : Bool) (dv : String) :
    builder_factory (Json.boolean b) dv = Except.ok DraftBuilder.draft7 := rfl

/-- C10: a schema document that is neither an object nor a boolean makes
`make_json_schema` raise `schema_error("Schema must be object or boolean")`
before any compilation, so no compiled schema is produced. -/
theorem non_object_schema_rejected (msv : Msv) (resolver : Option (Uri → Json))
    (fuel : Nat) (sch : Json) (ruri : Uri) (dv : String)
    (hobj : sch.is_object = false) (hbool : sch.is_bool = false) :
    make_json_schema msv resolver fuel sch ruri dv =
      Except.error "Schema must be object or boolean" := by
  cases sch with
  | obj ms => simp [Json.is_object] at hobj
  | boolean b => simp [Json.is_bool] at hbool
  | null => rfl
  | number n => rfl
  | str t => rfl
  | arr xs => rfl

/-- Witness for C10 at the number document `42`. -/
theorem non_object_schema_rejected_witness :
    (Json.number 42).is_object = false ∧ (Json.number 42).is_bool = false ∧
    make_json_schema msvW none 0 (Json.number 42) uriW "" =
      Except.error "Schema must be object or boolean" :=
  ⟨rfl, rfl, non_object_schema_rejected msvW none 0 (Json.number 42) uriW "" rfl rfl⟩

theorem load_locations_all_found (msv : Msv) (resolver : Option (Uri → Json)) :
    ∀ (locs : List Uri) (s : BuilderState),
      (∀ loc ∈ locs, dictFind s.schema_dictionary loc ≠ none) →
      load_locations msv resolver locs s = Except.ok (s, []) := by
  intro locs
  induction locs with
  | nil => intro s _; rfl
  | cons loc rest ih =>
    intro s h
    obtain ⟨n, hn⟩ := Option.ne_none_iff_exists'.mp (h loc (List.mem_cons_self _ _))
    simp only [load_locations]
    rw [hn]
    exact ih s fun l hl => h l (List.mem_cons_of_mem _ hl)

theorem get_schema_loop_stops (msv : Msv) (resolver : Option (Uri → Json))
    (fuel : Nat) (s s1 : BuilderState)
    (h : load_locations msv resolver (s.unresolved_refs.map Prod.fst) s =
      Except.ok (s1, [])) :
    get_schema_loop msv resolver fuel s = Except.ok (s1, []) := by
  cases fuel with
  | zero =>
    rw [get_schema_loop, h]
    rfl
  | succ f =>
    rw [get_schema_loop, h]
    rfl

/-- C5: when every unresolved reference identifier is already registered (the
document set has only internal references), `get_schema` succeeds without a
single resolver invocation, whatever resolver, if any, was supplied. -/
theorem internal_refs_need_no_resolver (msv : Msv) (resolver : Option (Uri → Json))
    (fuel : Nat) (s : BuilderState)
    (hint : ∀ p ∈ s.unresolved_refs, dictFind s.schema_dictionary p.1 ≠ none) :
    ∃ s2, get_schema msv resolver fuel s = Except.ok (s2, []) := by
  have hpass : load_locations msv resolver (s.unresolved_refs.map Prod.fst) s =
      Except.ok (s, []) := by
    refine load_locations_all_found msv resolver _ s ?_
    intro loc hl
    obtain ⟨p, hp, hpl⟩ := List.mem_map.mp hl
    subst hpl
    exact hint p hp
  have hloop := get_schema_loop_stops msv resolver fuel s s hpass
  obtain ⟨s2, hres⟩ := link_refs_ok_of_found s hint
  refine ⟨s2, ?_⟩
  have hres2 : resolve_references s = Except.ok s2 := hres
  rw [get_schema, hloop]
  show (match resolve_references s with
        | Except.error e => Except.error e
        | Except.ok s2 => Except.ok (s2, ([] : List LoadCall))) = Except.ok (s2, [])
  rw [hres2]

/-- Witness for C5 at a state whose only unresolved reference is registered. -/
theorem internal_refs_need_no_resolver_witness :
    (∀ p ∈ sInternal.unresolved_refs,
        dictFind sInternal.schema_dictionary p.1 ≠ none) ∧
    ∃ s2, get_schema msvW (some resW) 3 sInternal = Except.ok (s2, []) :=
  ⟨by decide, internal_refs_need_no_resolver msvW (some resW) 3 sInternal (by decide)⟩


theorem load_locations_calls (msv : Msv) (hmono : MsvDictMono msv) (res : Uri → Json) :
    ∀ (locs : List Uri) (s s1 : BuilderState) (calls : List LoadCall),
      load_locations msv (some res) locs s = Except.ok (s1, calls) →
      ∀ c ∈ calls, c.contextBase = c.resolverArg ∧
        ∃ loc ∈ locs, c.resolverArg = loc.toBase ∧
          dictFind s.schema_dictionary loc = none := by
  intro locs
  induction locs with
  | nil =>
    intro s s1 calls hload c hc
    cases hload
    cases hc
  | cons loc rest ih =>
    intro s s1 calls hload c hc
    simp only [load_locations] at hload
    split at hload
    · obtain ⟨h1, loc2, hmem, h2, h3⟩ := ih s s1 calls hload c hc
      exact ⟨h1, loc2, List.mem_cons_of_mem _ hmem, h2, h3⟩
    · rename_i hf
      split at hload
      · rename_i s3 cs hrec
        cases hload
        rcases List.mem_cons.mp hc with rfl | hc2
        · exact ⟨rfl, loc, List.mem_cons_self _ _, rfl, hf⟩
        · obtain ⟨h1, loc2, hmem, h2, h3⟩ := ih _ _ _ hrec c hc2
          refine ⟨h1, loc2, List.mem_cons_of_mem _ hmem, h2, ?_⟩
          rw [dictFind_eq_none_iff] at h3 ⊢
          intro p hp
          exact h3 p (hmono s loc.toBase (res loc.toBase) p hp)
      · cases hload

theorem get_schema_loop_continues (msv : Msv) (resolver : Option (Uri → Json))
    (fuel : Nat) (s s1 : BuilderState) (calls : List LoadCall)
    (h : load_locations msv resolver (s.unresolved_refs.map Prod.fst) s =
      Except.ok (s1, calls))
    (hne : calls ≠ []) :
    get_schema_loop msv resolver (fuel + 1) s =
      (get_schema_loop msv resolver fuel s1).map (fun p => (p.1, calls ++ p.2)) := by
  have hie : calls.isEmpty = false := by
    cases calls with
    | nil => exact absurd rfl hne
    | cons c cs => rfl
  rw [get_schema_loop, h]
  show (if calls.isEmpty = true then Except.ok (s1, ([] : List LoadCall))
        else
          match get_schema_loop msv resolver fuel s1 with
          | Except.error e => Except.error e
          | Except.ok (s2, more) => Except.ok (s2, calls ++ more)) =
      (get_schema_loop msv resolver fuel s1).map (fun p => (p.1, calls ++ p.2))
  rw [hie, if_neg Bool.false_ne_true]
  cases hrec : get_schema_loop msv resolver fuel s1 with
  | error e => rfl
  | ok p => rfl

/-- C4: in the external-document resolution phase, the resolver is invoked
only for unresolved reference identifiers whose URI is not in the registry,
each fetched document is compiled in a context based at its own base URI (the
very URI the resolver was called with), and the do-while loop stops exactly
after the first pass that performs no load, repeating otherwise. -/
theorem external_document_loading_spec (msv : Msv) (hmono : MsvDictMono msv)
    (res : Uri → Json) (fuel : Nat) (s s1 : BuilderState) (calls : List LoadCall)
    (hload : load_locations msv (some res) (s.unresolved_refs.map Prod.fst) s =
      Except.ok (s1, calls)) :
    (∀ c ∈ calls, c.contextBase = c.resolverArg ∧
        ∃ p ∈ s.unresolved_refs, c.resolverArg = p.1.toBase ∧
          dictFind s.schema_dictionary p.1 = none)
  ∧ (calls = [] → get_schema_loop msv (some res) fuel s = Except.ok (s1, []))
  ∧ (calls ≠ [] → get_schema_loop msv (some res) (fuel + 1) s =
      (get_schema_loop msv (some res) fuel s1).map (fun p => (p.1, calls ++ p.2))) := by
  refine ⟨?_, ?_, ?_⟩
  · intro c hc
    obtain ⟨h1, loc, hmem, h2, h3⟩ :=
      load_locations_calls msv hmono res _ s s1 calls hload c hc
    obtain ⟨p, hp, hpl⟩ := List.mem_map.mp hmem
    subst hpl
    exact ⟨h1, p, hp, h2, h3⟩
  · intro hnil
    subst hnil
    exact get_schema_loop_stops msv (some res) fuel s s1 hload
  · intro hne
    exact get_schema_loop_continues msv (some res) fuel s s1 calls hload hne

/-- Witness for C4 at a state with one external reference. -/
theorem external_document_loading_spec_witness :
    MsvDictMono msvW ∧
    ((∀ c ∈ [(⟨uB.toBase, uB.toBase⟩ : LoadCall)],
        c.contextBase = c.resolverArg ∧
        ∃ p ∈ sExternal.unresolved_refs, c.resolverArg = p.1.toBase ∧
          dictFind sExternal.schema_dictionary p.1 = none)
    ∧ ([(⟨uB.toBase, uB.toBase⟩ : LoadCall)] = [] →
        get_schema_loop msvW (some resW) 1 sExternal =
          Except.ok (sExternalLoaded, []))
    ∧ ([(⟨uB.toBase, uB.toBase⟩ : LoadCall)] ≠ [] →
        get_schema_loop msvW (some resW) (1 + 1) sExternal =
          (get_schema_loop msvW (some resW) 1 sExternalLoaded).map
            (fun p => (p.1, [(⟨uB.toBase, uB.toBase⟩ : LoadCall)] ++ p.2)))) :=
  ⟨msvW_dict_mono,
   external_document_loading_spec msvW msvW_dict_mono resW 1 sExternal sExternalLoaded
     [⟨uB.toBase, uB.toBase⟩] rfl⟩

/-- C7: the compiled `contains` validator is satisfied iff the count of
matching array items lies in `[minContains, maxContains]`; with both sibling
keywords absent the builder defaults to `minContains = 1` and `maxContains =
size_t max` (unbounded for any representable array), and a `minContains` of 0
makes the keyword pass on an empty array. -/
theorem contains_validator_spec (parent parent2 : List (String × Json))
    (msub : Json → Bool) (items : List Json) (cv2 : ContainsValidator)
    (hlen : items.length ≤ sizeTMax)
    (hmin : lookupMember parent "minContains" = none)
    (hmax : lookupMember parent "maxContains" = none)
    (hmin2 : lookupMember parent2 "minContains" = some (Json.number 0))
    (hok2 : make_contains_validator parent2 = Except.ok cv2) :
    (make_contains_validator parent = Except.ok ⟨sizeTMax, 1⟩ ∧
      (contains_satisfied ⟨sizeTMax, 1⟩ msub items = true ↔
        1 ≤ (items.filter msub).length))
  ∧ (contains_satisfied cv2 msub items = true ↔
      cv2.minContains ≤ (items.filter msub).length ∧
      (items.filter msub).length ≤ cv2.maxContains)
  ∧ cv2.minContains = 0
  ∧ contains_satisfied cv2 msub [] = true := by
  have hcnt : (items.filter msub).length ≤ sizeTMax :=
    le_trans (List.length_filter_le _ _) hlen
  have hmk : make_contains_validator parent = Except.ok ⟨sizeTMax, 1⟩ := by
    rw [make_contains_validator, hmax, make_contains_min, hmin]
  have hmin0 : cv2.minContains = 0 := by
    rw [make_contains_validator] at hok2
    cases hmax2 : lookupMember parent2 "maxContains" with
    | none =>
      rw [hmax2, make_contains_min, hmin2] at hok2
      have h2 : Except.ok (⟨sizeTMax, 0⟩ : ContainsValidator) = Except.ok cv2 := hok2
      cases h2
      rfl
    | some v2 =>
      rw [hmax2] at hok2
      have hok2b : (match v2.asSizeT with
          | none => Except.error "maxContains conversion to size_t failed"
          | some mx => make_contains_min parent2 mx) = Except.ok cv2 := hok2
      cases hv2 : v2.asSizeT with
      | none =>
        rw [hv2] at hok2b
        cases hok2b
      | some mx =>
        rw [hv2] at hok2b
        have hok3 : make_contains_min parent2 mx = Except.ok cv2 := hok2b
        rw [make_contains_min, hmin2] at hok3
        have h2 : Except.ok (⟨mx, 0⟩ : ContainsValidator) = Except.ok cv2 := hok3
        cases h2
        rfl
  refine ⟨⟨hmk, ?_⟩, ?_, hmin0, ?_⟩
  · simp [contains_satisfied, hcnt]
  · simp [contains_satisfied]
  · simp [contains_satisfied, hmin0]

/-- Witness for C7 at a singleton array and concrete sibling keywords. -/
theorem contains_validator_spec_witness :
    ([Json.null].length ≤ sizeTMax) ∧
    ((make_contains_validator [] = Except.ok ⟨sizeTMax, 1⟩ ∧
      (contains_satisfied ⟨sizeTMax, 1⟩ (fun _ => true) [Json.null] = true ↔
        1 ≤ ([Json.null].filter (fun _ => true)).length))
    ∧ (contains_satisfied ⟨sizeTMax, 0⟩ (fun _ => true) [Json.null] = true ↔
        (⟨sizeTMax, 0⟩ : ContainsValidator).minContains ≤
          ([Json.null].filter (fun _ => true)).length ∧
        ([Json.null].filter (fun _ => true)).length ≤
          (⟨sizeTMax, 0⟩ : ContainsValidator).maxContains)
    ∧ (⟨sizeTMax, 0⟩ : ContainsValidator).minContains = 0
    ∧ contains_satisfied ⟨sizeTMax, 0⟩ (fun _ => true) [] = true) :=
  ⟨by decide,
   contains_validator_spec [] [("minContains", Json.number 0)] (fun _ => true)
     [Json.null] ⟨sizeTMax, 0⟩ (by decide) rfl rfl rfl rfl⟩

/-- C8 counterexample: when an unresolved reference to the unknown keyword
URI is already pending, `insert_unknown_keyword` does not record the subtree
in the unknown-keyword table (the claim says it always records it); the
subtree is compiled into an arena node instead. -/
theorem insert_unknown_pending_ref_counterexample :
    (insert_unknown_keyword msvW sPending baseU "k" (Json.obj [])).unknown_keywords = []
  ∧ dictFind (insert_unknown_keyword msvW sPending baseU "k"
      (Json.obj [])).unknown_keywords (baseU.appendKey "k") = none
  ∧ (insert_unknown_keyword msvW sPending baseU "k" (Json.obj [])).subschemas = [1] := by
  have h1 : insert_unknown_keyword msvW sPending baseU "k" (Json.obj []) =
      insert_unknown_members msvW
        (save_schema (msvW sPending (baseU.appendKey "k") (Json.obj [])).2
          (msvW sPending (baseU.appendKey "k") (Json.obj [])).1)
        (baseU.appendKey "k") [] := by
    rw [iuk_eq_obj, if_pos (by decide), pending_if_then _ _ (by decide)]
  have h2 : insert_unknown_members msvW
      (save_schema (msvW sPending (baseU.appendKey "k") (Json.obj [])).2
        (msvW sPending (baseU.appendKey "k") (Json.obj [])).1)
      (baseU.appendKey "k") [] =
      save_schema (msvW sPending (baseU.appendKey "k") (Json.obj [])).2
        (msvW sPending (baseU.appendKey "k") (Json.obj [])).1 := by
    rw [insert_unknown_members]
  rw [h1, h2]
  exact ⟨rfl, rfl, rfl⟩

/-- C8 (amended): an unrecognized keyword subtree is recorded (recursively,
its JSON-Pointer descendants included) in the unknown-keyword table when no
unresolved reference to its URI is pending — a pending reference triggers
immediate compilation instead — and a later reference lookup that finds a
recorded URI promotes the stored subtree to a real saved schema node, wires
the reference to it, and removes the entry from the table. -/
theorem unknown_keyword_record_and_promote (msv : Msv) (s t : BuilderState)
    (u : Uri) (key : String) (v : Json) (idf : Uri) (w : Json)
    (hnp : ∀ e ∈ unknown_entries u key v, ∀ p ∈ s.unresolved_refs, p.1 ≠ e.1)
    (hfrag : (idf.hasFragment && !idf.hasPlainNameFragment) = true)
    (hdict : dictFind t.schema_dictionary idf = none)
    (hunk : dictFind t.unknown_keywords idf = some w) :
    ((insert_unknown_keyword msv s u key v).unresolved_refs = s.unresolved_refs
      ∧ ∀ e ∈ unknown_entries u key v,
          dictFind (insert_unknown_keyword msv s u key v).unknown_keywords e.1 ≠ none)
  ∧ (∃ r final, get_or_create_reference msv t idf = (r, final) ∧
      (r, some (msv t idf w).1) ∈ final.refTargets ∧
      (msv t idf w).1 ∈ final.subschemas ∧
      dictFind final.unknown_keywords idf = none) := by
  constructor
  · have h := iuk_records msv s u key v hnp
    exact ⟨h.1, h.2.2⟩
  · have hgc : get_or_create_reference msv t idf =
        (let ns := msv t idf w
         let s2 := { ns.2 with unknown_keywords := dictErase ns.2.unknown_keywords idf }
         let rs := new_ref s2 (some ns.1)
         (rs.1, save_schema rs.2 ns.1)) := by
      rw [get_or_create_reference, hdict, if_pos hfrag, hunk]
    refine ⟨(get_or_create_reference msv t idf).1,
      (get_or_create_reference msv t idf).2, rfl, ?_, ?_, ?_⟩
    · rw [hgc]
      exact List.mem_append.mpr (Or.inr (List.mem_singleton.mpr rfl))
    · rw [hgc]
      exact List.mem_append.mpr (Or.inr (List.mem_singleton.mpr rfl))
    · rw [hgc]
      exact dictFind_erase_self _ _

/-- Witness for C8 at a concrete recording and a concrete promotion. -/
theorem unknown_keyword_record_and_promote_witness :
    (((insert_unknown_keyword msvW sClean baseU "k2"
          (Json.obj [("a", Json.null)])).unresolved_refs = sClean.unresolved_refs
      ∧ ∀ e ∈ unknown_entries baseU "k2" (Json.obj [("a", Json.null)]),
          dictFind (insert_unknown_keyword msvW sClean baseU "k2"
            (Json.obj [("a", Json.null)])).unknown_keywords e.1 ≠ none)
    ∧ (∃ r final, get_or_create_reference msvW sRecorded refU = (r, final) ∧
        (r, some (msvW sRecorded refU (Json.obj [])).1) ∈ final.refTargets ∧
        (msvW sRecorded refU (Json.obj [])).1 ∈ final.subschemas ∧
        dictFind final.unknown_keywords refU = none)) :=
  unknown_keyword_record_and_promote msvW sClean sRecorded baseU "k2"
    (Json.obj [("a", Json.null)]) refU (Json.obj [])
    (fun _ _ p hp => absurd hp (List.not_mem_nil p))
    (by decide) rfl rfl


end Jsonschema
